import Mathlib

/-!
Verification of the exception-rewriting scripts of this repository.

The scripts are Python text-transformation programs; we embed them shallowly
over `List Char` (one Lean function per Python construct that the scripts use):

* Python `pat in s`            -> `containsSub pat s`
* Python `s.replace(pat, rep)` -> `replaceAll pat rep s`   (all occurrences,
  scanned left to right, non-overlapping, skipping each match)
* Python `s.split('\n')`       -> `splitNl s`
* Python `'\n'.join(lines)`    -> `joinNl lines`
* Python `s.strip()/rstrip()`  -> `pyStrip s` / `rstrip s` (Python whitespace)
* Python `s.startswith/endswith` -> `List.isPrefixOf` / `List.isSuffixOf`
* Python `re.sub(pattern, repl, s)` for the three literal-delimited regexes
  of the scripts -> `pySub` with a bespoke matcher per regex (the regexes are
  a literal head, a greedy nonempty run of non-delimiter characters, and a
  literal tail, so they are recognized deterministically without backtracking)

The scanning recursions carry explicit fuel equal to the length of the text,
which each step strictly decreases, keeping every definition structural and
hence evaluable by `decide` / `rfl`.
-/

abbrev Str := List Char

/-- Python substring membership `pat in s` (empty pattern is everywhere). -/
def containsSub (pat : Str) : Str → Bool
  | [] => pat.isEmpty
  | c :: rest => pat.isPrefixOf (c :: rest) || containsSub pat rest

/-- Python whitespace classifier used by `str.strip` / `str.rstrip`. -/
def pyWs (c : Char) : Bool :=
  c == ' ' || c == '\t' || c == '\n' || c == '\r' ||
  c == Char.ofNat 11 || c == Char.ofNat 12

/-- Python `s.lstrip()`. -/
def lstrip (s : Str) : Str := s.dropWhile pyWs

/-- Python `s.rstrip()`. -/
def rstrip (s : Str) : Str := (s.reverse.dropWhile pyWs).reverse

/-- Python `s.strip()`. -/
def pyStrip (s : Str) : Str := rstrip (lstrip s)

/-- Worker for `replaceAll`; `fuel` bounds the number of scanning steps. -/
def replaceAllGo (pat rep : Str) : Nat → Str → Str
  | 0, s => s
  | _ + 1, [] => []
  | fuel + 1, c :: rest =>
    if pat.isPrefixOf (c :: rest) && !pat.isEmpty then
      rep ++ replaceAllGo pat rep fuel (List.drop (pat.length - 1) rest)
    else
      c :: replaceAllGo pat rep fuel rest

/-- Python `s.replace(pat, rep)` for a nonempty `pat` (all the patterns the
scripts replace are nonempty, so the empty-pattern branch is never taken). -/
def replaceAll (pat rep s : Str) : Str := replaceAllGo pat rep s.length s

/-- Worker for `countOcc`. -/
def countOccGo (pat : Str) : Nat → Str → Nat
  | 0, _ => 0
  | _ + 1, [] => 0
  | fuel + 1, c :: rest =>
    if pat.isPrefixOf (c :: rest) && !pat.isEmpty then
      1 + countOccGo pat fuel (List.drop (pat.length - 1) rest)
    else
      countOccGo pat fuel rest

/-- Number of non-overlapping occurrences of `pat` in `s` (Python `s.count`). -/
def countOcc (pat s : Str) : Nat := countOccGo pat s.length s

/-- Python `s.split('\n')`. -/
def splitNl : Str → List Str
  | [] => [[]]
  | c :: rest =>
    if c = '\n' then [] :: splitNl rest
    else
      match splitNl rest with
      | [] => [[c]]
      | l :: ls => (c :: l) :: ls

/-- Python `'\n'.join(lines)`. -/
def joinNl : List Str → Str
  | [] => []
  | [l] => l
  | l :: ls => l ++ '\n' :: joinNl ls

/-- Number of lines of `lines` equal to `d` (how often a whole line is `d`). -/
def countLine (d : Str) : List Str → Nat
  | [] => 0
  | l :: ls => (if l = d then 1 else 0) + countLine d ls

/-! ## fix_business_repo.py

The script reads the target file, injects the `InfrastructureException` import
after the typeorm import via `str.replace` when the marker is absent, renames
every `throw new Error(` to `throw new InfrastructureException(`, and appends
`, "INFRASTRUCTURE_ERROR"` to every single-line statement that contains
`throw new InfrastructureException(` followed by a backtick and whose stripped
line ends with `);`.
-/

def bizMarker : Str := "InfrastructureException".toList

def bizAnchor : Str := "import { Repository } from 'typeorm';".toList

/-- The replacement text of the import injection: the anchor line followed by
the injected import declaration. -/
def bizAnchorIns : Str :=
  ("import { Repository } from 'typeorm';\n" ++
   "import { InfrastructureException } from '@shared/exceptions/shared.exceptions';").toList

def throwErr : Str := "throw new Error(".toList

def throwInfra : Str := "throw new InfrastructureException(".toList

def litTpl : Str := "throw new InfrastructureException(`".toList

def closePar : Str := ");".toList

def codeRep : Str := ", \"INFRASTRUCTURE_ERROR\");".toList

/-- One iteration of the template-literal loop of fix_business_repo.py:
`if 'throw new InfrastructureException(`' in line and line.strip().endswith(');'):
lines[i] = line.replace(');', ', "INFRASTRUCTURE_ERROR");')`. -/
def fixBizLine (line : Str) : Str :=
  if containsSub litTpl line && closePar.isSuffixOf (pyStrip line) then
    replaceAll closePar codeRep line
  else line

/-- Whole-text transformation of fix_business_repo.py. -/
def fixBusinessRepo (content : Str) : Str :=
  let c1 := if containsSub bizMarker content then content
            else replaceAll bizAnchor bizAnchorIns content
  let c2 := replaceAll throwErr throwInfra c1
  joinNl ((splitNl c2).map fixBizLine)

/-! ## quick_fix_business.py

The script reads the file with `readlines()` (each element keeps its trailing
newline), then for each index `i` whose line contains
`throw new InfrastructureException(` with `lines[i+2].strip() == ');'`:
if `lines[i+1]` contains one of eight message substrings, `lines[i+2]` is
overwritten with the fixed two-physical-line text
`        "INFRASTRUCTURE_ERROR"\n      );\n`; then, if `lines[i+1].rstrip()`
does not end with a comma, a comma and newline replace its trailing
whitespace.  The list is mutated in place while being enumerated, so each
step reads the current state of the list.
-/

def qfMarker : Str := "throw new InfrastructureException(".toList

def qfClose : Str := ");".toList

/-- The hard-coded replacement for the closing line: a code argument line
indented with eight spaces and a closing line indented with six spaces. -/
def qfFixed : Str := "        \"INFRASTRUCTURE_ERROR\"\n      );\n".toList

/-- The eight message substrings of the `elif` chain.  Every branch of the
chain assigns the same text, so first-match order is irrelevant and the chain
is equivalent to this disjunction. -/
def qfSubs : List Str :=
  [ "Failed to find business by id:".toList
  , "Failed to find business by name:".toList
  , "Failed to find businesses by sector:".toList
  , "Failed to search businesses:".toList
  , "Failed to save business:".toList
  , "Failed to delete business:".toList
  , "Failed to check business name existence:".toList
  , "Failed to get business statistics:".toList ]

def qfComma : Str := ",".toList

def qfCommaNl : Str := ",\n".toList

/-- The loop body of quick_fix_business.py at index `i` on the current list. -/
def quickFixStep (ls : List Str) (i : Nat) : List Str :=
  let line := ls.getD i []
  if containsSub qfMarker line && decide (i + 2 < ls.length) &&
      (pyStrip (ls.getD (i + 2) []) == qfClose) then
    let ls1 := if qfSubs.any (fun sub => containsSub sub (ls.getD (i + 1) []))
               then ls.set (i + 2) qfFixed else ls
    let mid := ls1.getD (i + 1) []
    if qfComma.isSuffixOf (rstrip mid) then ls1
    else ls1.set (i + 1) (rstrip mid ++ qfCommaNl)
  else ls

/-- `for i, line in enumerate(lines)` over the mutable list: `k` indices left. -/
def quickFixIter : Nat → Nat → List Str → List Str
  | 0, _, ls => ls
  | k + 1, i, ls => quickFixIter k (i + 1) (quickFixStep ls i)

/-- The whole multi-line fixer on the `readlines()` view of the file. -/
def quickFixLines (ls : List Str) : List Str := quickFixIter ls.length 0 ls

/-! ## fix_business_sector_repo.py

The script injects the import by inserting the declaration line after the
first line that starts with `import ` (when the marker is absent anywhere in
the file), then applies three `re.sub` rewrites, one per quoting style.
-/

def sectorDecl : Str :=
  "import { InfrastructureException } from '@shared/exceptions/shared.exceptions';".toList

def importKw : Str := "import ".toList

/-- `for i, line in enumerate(lines): if line.startswith('import '):
lines.insert(i+1, decl); break` — insert after the first import line only. -/
def insertAfterFirstImport : List Str → List Str
  | [] => []
  | l :: ls =>
    if importKw.isPrefixOf l then l :: sectorDecl :: ls
    else l :: insertAfterFirstImport ls

/-- The import-injection stage of fix_business_sector_repo.py. -/
def sectorInject (content : Str) : Str :=
  if containsSub bizMarker content then content
  else joinNl (insertAfterFirstImport (splitNl content))

def lit1 : Str := "throw new Error('".toList
def close1 : Str := "');".toList
def lit2 : Str := "throw new Error(\"".toList
def close2 : Str := "\");".toList
def lit3 : Str := "throw new Error(`".toList
def close3 : Str := "`);".toList

def rep1head : Str := "throw new InfrastructureException(\"".toList
def rep1tail : Str := "\", \"INFRASTRUCTURE_ERROR\");".toList
def rep3head : Str := "throw new InfrastructureException(`".toList
def rep3tail : Str := "`, \"INFRASTRUCTURE_ERROR\");".toList

/-- Matcher for the regexes `throw new Error\(<q>([^<q>]+)<q>\);` (with `<q>`
one of the three quote characters): a literal head `lit`, a greedy nonempty
run of non-`qc` characters, and the literal tail `close`.  On success it
returns the replacement text and the remainder of the input after the match.
The run is maximal and is followed by a `qc`, so regex backtracking can never
produce a different (or additional) match: this matcher is exactly the regex. -/
def tryMatchQ (lit close reph rept : Str) (qc : Char) (s : Str) :
    Option (Str × Str) :=
  if lit.isPrefixOf s then
    let after := s.drop lit.length
    let p := after.takeWhile (fun c => !(c == qc))
    let rest := after.dropWhile (fun c => !(c == qc))
    if !p.isEmpty && close.isPrefixOf rest then
      some (reph ++ p ++ rept, rest.drop close.length)
    else none
  else none

/-- Worker for `pySub`: scan left to right; on a match emit the replacement
and continue after the match, otherwise advance one character. -/
def subGo (tm : Str → Option (Str × Str)) : Nat → Str → Str
  | 0, s => s
  | _ + 1, [] => []
  | fuel + 1, c :: rest =>
    match tm (c :: rest) with
    | some (rep, remainder) => rep ++ subGo tm fuel remainder
    | none => c :: subGo tm fuel rest

/-- `re.sub` with matcher `tm` (every matcher used consumes at least one
character, so fuel `s.length` is never exhausted). -/
def pySub (tm : Str → Option (Str × Str)) (s : Str) : Str := subGo tm s.length s

/-- The three `re.sub` passes of fix_business_sector_repo.py, in script order. -/
def sectorPatterns (s : Str) : Str :=
  pySub (tryMatchQ lit3 close3 rep3head rep3tail '`')
    (pySub (tryMatchQ lit2 close2 rep1head rep1tail '\"')
      (pySub (tryMatchQ lit1 close1 rep1head rep1tail '\'') s))

/-- Whole-text transformation of fix_business_sector_repo.py. -/
def fixSector (content : Str) : Str := sectorPatterns (sectorInject content)

/-- The file pipeline of fix_business_sector_repo.py: the script reopens the
file in write mode and writes the transformed text unconditionally; the
boolean records that the write system call is performed. -/
def sectorRun (content : Str) : Str × Bool := (fixSector content, true)

/-! ## Concrete inputs and derived constants used by the claim theorems -/

def tplThrowLine : Str := "throw new Error(`x`);".toList

def tplRewritten : Str :=
  "throw new InfrastructureException(`x`, \"INFRASTRUCTURE_ERROR\");".toList

def tplRewrittenTwice : Str :=
  "throw new InfrastructureException(`x`, \"INFRASTRUCTURE_ERROR\", \"INFRASTRUCTURE_ERROR\");".toList

def codedThrowLine : Str := "throw new Error(`msg`, \"BUSINESS_ERROR\");".toList

def codedThrowDoubled : Str :=
  "throw new InfrastructureException(`msg`, \"BUSINESS_ERROR\", \"INFRASTRUCTURE_ERROR\");".toList

def scenarioLine : Str :=
  "throw new Error('Failed to save business: ' + err);".toList

def scenarioRenamedOnly : Str :=
  "throw new InfrastructureException('Failed to save business: ' + err);".toList

def scenarioClaimed : Str :=
  "throw new InfrastructureException('Failed to save business: ' + err, \"BUSINESS_SAVE_ERROR\");".toList

def saveCode : Str := "BUSINESS_SAVE_ERROR".toList

def quoteLine : Str := "throw new Error('abc');".toList

def quoteLineOut : Str :=
  "throw new InfrastructureException(\"abc\", \"INFRASTRUCTURE_ERROR\");".toList

def singleQuotedPayload : Str := "'abc'".toList

def dupAnchorFile : Str :=
  ("import { Repository } from 'typeorm';\n" ++
   "import { Repository } from 'typeorm';\n" ++
   "throw new Error(`x`);").toList

def mlThrow : Str := "      throw new InfrastructureException(\n".toList

def mlMsg : Str := "        `Failed to save business: ${err}`\n".toList

def mlMsgComma : Str := "        `Failed to save business: ${err}`,\n".toList

def mlCloseEight : Str := "        );\n".toList

def eightSpClose : Str := "        );".toList

def mlOtherMsg : Str := "        `Unexpected database failure`\n".toList

def mlOtherMsgComma : Str := "        `Unexpected database failure`,\n".toList

def mlCloseSix : Str := "      );\n".toList

def infraCode : Str := "INFRASTRUCTURE_ERROR".toList

def injectInput : Str :=
  ("import { Repository } from 'typeorm';\nthrow new Error('x');").toList

def tplCodeTail : Str := "`, \"INFRASTRUCTURE_ERROR\");".toList

/-! ## Bridging lemmas between the boolean string operations and their
specifications as `List.IsInfix` / `List.IsPrefix` facts. -/

theorem containsSub_iff (pat s : Str) : containsSub pat s = true ↔ pat <:+: s := by
  induction s with
  | nil => simp [containsSub]
  | cons c rest ih => simp [containsSub, ih, List.infix_cons_iff]

theorem containsSub_eq_false_iff (pat s : Str) :
    containsSub pat s = false ↔ ¬ pat <:+: s := by
  rw [← containsSub_iff]
  cases containsSub pat s <;> simp

theorem containsSub_head (pat x : Str) : containsSub pat (pat ++ x) = true := by
  rw [containsSub_iff]
  exact ⟨[], x, by simp⟩

theorem isPrefixOf_self_append (a x : Str) : a.isPrefixOf (a ++ x) = true := by
  rw [ List.isPrefixOf_iff_prefix]
  exact ⟨x, rfl⟩

theorem isSuffixOf_self_append (x a : Str) : a.isSuffixOf (x ++ a) = true := by
  rw [List.isSuffixOf_iff_suffix]
  exact ⟨x, rfl⟩

theorem isPrefixOf_append_false (a b x : Str) (hlen : a.length ≤ b.length)
    (hne : a ≠ b.take a.length) : a.isPrefixOf (b ++ x) = false := by
  cases hP : a.isPrefixOf (b ++ x) with
  | false => rfl
  | true =>
    exfalso
    have h1 := List.prefix_iff_eq_take.mp ( List.isPrefixOf_iff_prefix.mp hP)
    rw [List.take_append_eq_append_take, Nat.sub_eq_zero_of_le hlen,
      List.take_zero, List.append_nil] at h1
    exact hne h1

theorem takeWhile_append_stop (f : Char → Bool) (l₁ : Str) (d : Char) (l₂ : Str)
    (h : ∀ x ∈ l₁, f x = true) (hd : f d = false) :
    (l₁ ++ d :: l₂).takeWhile f = l₁ := by
  induction l₁ with
  | nil => simp [List.takeWhile_cons, hd]
  | cons a l ih =>
    have h1 : f a = true := h a (List.mem_cons_self a l)
    have h2 := ih (fun x hx => h x (List.mem_cons_of_mem a hx))
    simp [List.takeWhile_cons, h1, h2]

theorem dropWhile_append_stop (f : Char → Bool) (l₁ : Str) (d : Char) (l₂ : Str)
    (h : ∀ x ∈ l₁, f x = true) (hd : f d = false) :
    (l₁ ++ d :: l₂).dropWhile f = d :: l₂ := by
  induction l₁ with
  | nil => simp [List.dropWhile_cons, hd]
  | cons a l ih =>
    simp only [List.cons_append, List.dropWhile_cons, h a (by simp)]
    exact ih (fun x hx => h x (by simp [hx]))

theorem lstrip_cons_nonws (c : Char) (l : Str) (hc : pyWs c = false) :
    lstrip (c :: l) = c :: l := by
  simp [lstrip, List.dropWhile_cons, hc]

theorem rstrip_last_nonws (x : Str) (d : Char) (hd : pyWs d = false) :
    rstrip (x ++ [d]) = x ++ [d] := by
  simp [rstrip, List.dropWhile_cons, hd]

/-! ## Parametric evaluation lemmas for `replaceAll`, `pySub`, `splitNl` -/

theorem replaceAllGo_no_occ (pat rep : Str) (s : Str) (h : ¬ pat <:+: s) :
    ∀ fuel, replaceAllGo pat rep fuel s = s := by
  induction s with
  | nil => intro fuel; cases fuel <;> rfl
  | cons c rest ih =>
    intro fuel
    cases fuel with
    | zero => rfl
    | succ f =>
      have hp : pat.isPrefixOf (c :: rest) = false := by
        cases hP : pat.isPrefixOf (c :: rest) with
        | false => rfl
        | true =>
          obtain ⟨t, ht⟩ := List.isPrefixOf_iff_prefix.mp hP
          exact absurd ⟨[], t, by simpa using ht⟩ h
      rw [replaceAllGo, hp]
      simp only [Bool.false_and, Bool.false_eq_true, if_false]
      rw [ih (fun hi => h (List.infix_cons hi)) f]

theorem replaceAll_no_occ (pat rep s : Str) (h : containsSub pat s = false) :
    replaceAll pat rep s = s :=
  replaceAllGo_no_occ pat rep s ((containsSub_eq_false_iff pat s).mp h) s.length

theorem replaceAllGo_single (pat rep s₂ : Str) (c : Char) (pat' : Str)
    (hpat : pat = c :: pat') (htail : ¬ pat <:+: s₂) :
    ∀ (s₁ : Str) (fuel : Nat), (s₁ ++ pat ++ s₂).length ≤ fuel → c ∉ s₁ →
      replaceAllGo pat rep fuel (s₁ ++ pat ++ s₂) = s₁ ++ rep ++ s₂ := by
  intro s₁
  induction s₁ with
  | nil =>
    intro fuel hfuel _
    cases fuel with
    | zero => subst hpat; simp at hfuel
    | succ f =>
      subst hpat
      simp only [List.nil_append] at hfuel ⊢
      rw [List.cons_append, replaceAllGo]
      have hpre : (c :: pat').isPrefixOf (c :: (pat' ++ s₂)) = true := by
        have h0 := isPrefixOf_self_append (c :: pat') s₂
        simp only [List.cons_append] at h0
        exact h0
      rw [hpre]
      simp only [Bool.true_and, List.isEmpty_cons, Bool.not_false, if_true]
      have hdrop : List.drop ((c :: pat').length - 1) (pat' ++ s₂) = s₂ := by
        simp only [List.length_cons, Nat.add_sub_cancel]
        exact List.drop_left pat' s₂
      rw [hdrop, replaceAllGo_no_occ _ _ _ htail f]
  | cons d s₁' ih =>
    intro fuel hfuel hc
    cases fuel with
    | zero => simp at hfuel
    | succ f =>
      simp only [List.cons_append] at hfuel ⊢
      rw [replaceAllGo]
      have hp : pat.isPrefixOf (d :: (s₁' ++ pat ++ s₂)) = false := by
        rw [hpat, List.isPrefixOf]
        have hcd : (c == d) = false := by
          rw [beq_eq_false_iff_ne]
          intro hEq
          exact hc (by rw [hEq]; exact List.mem_cons_self d s₁')
        rw [hcd, Bool.false_and]
      rw [hp]
      simp only [Bool.false_and, Bool.false_eq_true, if_false]
      have hrec := ih f (by simpa using Nat.le_of_succ_le_succ hfuel)
        (fun hm => hc (List.mem_cons_of_mem d hm))
      simp only [List.cons_append] at hrec
      rw [hrec]

theorem replaceAll_single (pat rep s₁ s₂ : Str) (c : Char) (pat' : Str)
    (hpat : pat = c :: pat') (hc : c ∉ s₁) (htail : ¬ pat <:+: s₂) :
    replaceAll pat rep (s₁ ++ pat ++ s₂) = s₁ ++ rep ++ s₂ :=
  replaceAllGo_single pat rep s₂ c pat' hpat htail s₁ _ (Nat.le_refl _) hc

theorem replaceAll_head_occ (pat rep tail : Str) (c : Char) (pat' : Str)
    (hpat : pat = c :: pat') (h : containsSub pat tail = false) :
    replaceAll pat rep (pat ++ tail) = rep ++ tail := by
  have := replaceAll_single pat rep [] tail c pat' hpat (by simp)
    ((containsSub_eq_false_iff pat tail).mp h)
  simpa using this

theorem subGo_nil (tm : Str → Option (Str × Str)) (fuel : Nat) :
    subGo tm fuel [] = [] := by
  cases fuel <;> rfl

theorem subGo_none (tm : Str → Option (Str × Str)) (s : Str)
    (h : ∀ t : Str, t <:+ s → tm t = none) :
    ∀ fuel, subGo tm fuel s = s := by
  induction s with
  | nil => intro fuel; exact subGo_nil tm fuel
  | cons c rest ih =>
    intro fuel
    cases fuel with
    | zero => rfl
    | succ f =>
      rw [subGo, h (c :: rest) ⟨[], rfl⟩]
      rw [ih (fun t ht => h t (ht.trans (List.suffix_cons c rest))) f]

theorem pySub_none (tm : Str → Option (Str × Str)) (s : Str)
    (h : ∀ t : Str, t <:+ s → tm t = none) : pySub tm s = s :=
  subGo_none tm s h s.length

theorem pySub_head_all (tm : Str → Option (Str × Str)) (s rep : Str)
    (hs : s ≠ []) (h : tm s = some (rep, [])) : pySub tm s = rep := by
  obtain ⟨c, s', rfl⟩ := List.exists_cons_of_ne_nil hs
  rw [pySub, List.length_cons, subGo, h]
  show rep ++ subGo tm s'.length [] = rep
  rw [subGo_nil, List.append_nil]

theorem splitNl_cons (c : Char) (rest : Str) :
    splitNl (c :: rest) = if c = '\n' then [] :: splitNl rest
      else match splitNl rest with
        | [] => [[c]]
        | l :: ls => (c :: l) :: ls := by
  rw [splitNl.eq_def]

theorem splitNl_spec (s : Str) :
    (∃ l₀ ls, splitNl s = l₀ :: ls ∧ l₀ <+: s) ∧ ∀ l ∈ splitNl s, l <:+: s := by
  induction s with
  | nil =>
    refine ⟨⟨[], [], rfl, List.nil_prefix⟩, ?_⟩
    intro l hl
    simp only [splitNl, List.mem_singleton] at hl
    simp [hl]
  | cons c rest ih =>
    obtain ⟨⟨l₀, ls, hsp, hpre⟩, hall⟩ := ih
    by_cases hc : c = '\n'
    · subst hc
      have heq : splitNl ('\n' :: rest) = [] :: splitNl rest := by
        rw [splitNl_cons, if_pos rfl]
      refine ⟨⟨[], splitNl rest, heq, List.nil_prefix⟩, ?_⟩
      intro l hl
      rw [heq, List.mem_cons] at hl
      rcases hl with rfl | hl
      · simp
      · exact List.infix_cons (hall l hl)
    · have heq : splitNl (c :: rest) = (c :: l₀) :: ls := by
        rw [splitNl_cons, if_neg hc, hsp]
      refine ⟨⟨c :: l₀, ls, heq, ?_⟩, ?_⟩
      · obtain ⟨t, ht⟩ := hpre
        exact ⟨t, by rw [List.cons_append, ht]⟩
      · intro l hl
        rw [heq, List.mem_cons] at hl
        rcases hl with rfl | hl
        · obtain ⟨t, ht⟩ := hpre
          exact ⟨[], t, by simp [List.cons_append, ht]⟩
        · have : l ∈ splitNl rest := by rw [hsp]; exact List.mem_cons_of_mem l₀ hl
          exact List.infix_cons (hall l this)

theorem splitNl_single (s : Str) (h : '\n' ∉ s) : splitNl s = [s] := by
  induction s with
  | nil => rfl
  | cons c rest ih =>
    have hc : ¬ c = '\n' := fun hEq => h (hEq ▸ List.mem_cons_self c rest)
    rw [splitNl, if_neg hc, ih (fun hm => h (List.mem_cons_of_mem c hm))]

theorem joinNl_single (l : Str) : joinNl [l] = l := rfl

theorem countLine_eq_zero (d : Str) (L : List Str) (h : ∀ l ∈ L, l ≠ d) :
    countLine d L = 0 := by
  induction L with
  | nil => rfl
  | cons l ls ih =>
    rw [countLine, if_neg (h l (List.mem_cons_self l ls)),
      ih (fun x hx => h x (List.mem_cons_of_mem l hx))]

theorem countLine_insert (L : List Str) (h0 : ∀ l ∈ L, l ≠ sectorDecl)
    (h1 : L.any (fun l => importKw.isPrefixOf l) = true) :
    countLine sectorDecl (insertAfterFirstImport L) = 1 := by
  induction L with
  | nil => simp at h1
  | cons l ls ih =>
    rw [List.any_cons, Bool.or_eq_true] at h1
    have hlne := h0 l (List.mem_cons_self l ls)
    have h0' := fun x hx => h0 x (List.mem_cons_of_mem l hx)
    rw [insertAfterFirstImport]
    cases hP : importKw.isPrefixOf l with
    | true =>
      rw [if_pos rfl]
      rw [countLine, countLine, if_neg hlne, if_pos rfl, countLine_eq_zero _ _ h0']
    | false =>
      rw [if_neg (by simp)]
      rcases h1 with h1 | h1
      · rw [hP] at h1; exact absurd h1 (by simp)
      · rw [countLine, if_neg hlne, ih h0' h1]

theorem tryMatchQ_hit (lit close reph rept : Str) (qc : Char) (p r : Str)
    (hne : p ≠ []) (hp : qc ∉ p) (hcl : close.isPrefixOf (qc :: r) = true) :
    tryMatchQ lit close reph rept qc (lit ++ (p ++ qc :: r)) =
      some (reph ++ p ++ rept, (qc :: r).drop close.length) := by
  have hQ : ∀ x ∈ p, (!(x == qc)) = true := by
    intro x hx
    have hxq : (x == qc) = false := beq_eq_false_iff_ne.mpr (fun hEq => hp (hEq ▸ hx))
    rw [hxq]; rfl
  have hqc : (!(qc == qc)) = false := by simp
  have hie : p.isEmpty = false := by
    cases p with
    | nil => exact absurd rfl hne
    | cons a as => rfl
  rw [tryMatchQ, isPrefixOf_self_append]
  simp only [if_true, List.drop_left, takeWhile_append_stop _ _ _ _ hQ hqc,
    dropWhile_append_stop _ _ _ _ hQ hqc, hcl, hie, Bool.not_false, Bool.true_and, if_true]

theorem tryMatchQ_none (lit close reph rept : Str) (qc : Char) (s t : Str)
    (hs : containsSub lit s = false) (ht : t <:+ s) :
    tryMatchQ lit close reph rept qc t = none := by
  have hp : lit.isPrefixOf t = false := by
    cases hP : lit.isPrefixOf t with
    | false => rfl
    | true =>
      exfalso
      obtain ⟨u, hu⟩ := List.isPrefixOf_iff_prefix.mp hP
      obtain ⟨v, hv⟩ := ht
      rw [containsSub_eq_false_iff] at hs
      exact hs ⟨v, u, by rw [List.append_assoc, hu, hv]⟩
  simp only [tryMatchQ, hp, Bool.false_eq_true, if_false]

/-! ## Concrete inputs used by the claim theorems -/
/-- C1: running fix_business_repo.py twice on a file holding one template-literal
throw statement appends the error-code argument a second time: the second run does
not recognize the canonical two-argument form, contradicting the idempotence the
specification requires (`rewrite(rewrite(f)) = rewrite(f)` fails at this input). -/
theorem fixBusinessRepo_second_run_duplicates_code :
    fixBusinessRepo tplThrowLine = tplRewritten ∧
    fixBusinessRepo (fixBusinessRepo tplThrowLine) = tplRewrittenTwice ∧
    fixBusinessRepo (fixBusinessRepo tplThrowLine) ≠ fixBusinessRepo tplThrowLine := by
  refine ⟨by decide, by decide, by decide⟩

/-- C4: a matched template-literal statement that already carries a code literal
as its second argument still gets `, "INFRASTRUCTURE_ERROR"` appended by
fix_business_repo.py, producing a duplicated code argument instead of keeping the
original code unchanged. -/
theorem fixBusinessRepo_appends_second_code :
    fixBusinessRepo codedThrowLine = codedThrowDoubled := by decide

/-- C5: on the specification scenario input
`throw new Error('Failed to save business: ' + err);` the business fixer only
renames the constructor (the message is a quoted concatenation, not a template
literal, so no code argument is appended), the sector fixer leaves the statement
unchanged, and no script produces the claimed `"BUSINESS_SAVE_ERROR"` code. -/
theorem scenario_line_gets_no_code :
    fixBusinessRepo scenarioLine = scenarioRenamedOnly ∧
    fixSector scenarioLine = scenarioLine ∧
    containsSub saveCode (fixBusinessRepo scenarioLine) = false ∧
    fixBusinessRepo scenarioLine ≠ scenarioClaimed := by
  refine ⟨by decide, by decide, by decide, by decide⟩
/-- C2 counterexample: a single-quoted message is re-emitted between double
quotes by fix_business_sector_repo.py, so the original quoting delimiters are
not preserved (the payload bytes `abc` are, but the surrounding `'` pair is
replaced by a `"` pair and no longer occurs in the output). -/
theorem sector_changes_single_quotes :
    fixSector quoteLine = quoteLineOut ∧
    containsSub singleQuotedPayload quoteLine = true ∧
    containsSub singleQuotedPayload (fixSector quoteLine) = false := by
  refine ⟨by decide, by decide, by decide⟩
set_option maxRecDepth 10000 in
/-- C3 counterexample: when the anchor line occurs twice, the `str.replace`
injection of fix_business_repo.py inserts the import declaration after every
occurrence, so a file with one rewritten statement ends up with the declaration
twice, not exactly once. -/
theorem import_injected_twice :
    countOcc sectorDecl (fixBusinessRepo dupAnchorFile) = 2 ∧
    containsSub litTpl (fixBusinessRepo dupAnchorFile) = true := by
  refine ⟨by decide, by decide⟩
/-- C6 counterexample: on a three-line statement whose closing line `);` is
indented with eight spaces, quick_fix_business.py replaces the closing line by
the fixed text `        "INFRASTRUCTURE_ERROR"\n      );\n` whose closing
parenthesis carries six spaces: the statement's original indentation is not
preserved but overwritten with hard-coded indentation. -/
theorem quickfix_hardcodes_indentation :
    quickFixLines [mlThrow, mlMsg, mlCloseEight] = [mlThrow, mlMsgComma, qfFixed] ∧
    containsSub eightSpClose mlCloseEight = true ∧
    containsSub eightSpClose qfFixed = false := by
  refine ⟨by decide, by decide, by decide⟩
/-- C7 counterexample: a matched three-line statement whose message contains
none of the eight listed substrings is still modified (the trailing comma is
added) but receives no code token at all — no default code is assigned, so the
rewritten output contains no occurrence of `INFRASTRUCTURE_ERROR`. -/
theorem quickfix_no_default_code :
    quickFixLines [mlThrow, mlOtherMsg, mlCloseSix] =
      [mlThrow, mlOtherMsgComma, mlCloseSix] ∧
    quickFixLines [mlThrow, mlOtherMsg, mlCloseSix] ≠ [mlThrow, mlOtherMsg, mlCloseSix] ∧
    containsSub infraCode (mlThrow ++ (mlOtherMsgComma ++ mlCloseSix)) = false := by
  refine ⟨by decide, by decide, by decide⟩

/-- C8 counterexample: on the empty file the sector pipeline leaves the text
unchanged and still performs the write (it reopens the file in write mode and
writes unconditionally), contradicting the claim that no write happens when the
transformed text equals the original. -/
theorem sector_writes_unchanged_file :
    fixSector [] = [] ∧ sectorRun [] = ([], true) := by
  refine ⟨by decide, by decide⟩

/-- C8 amended: the pipeline writes the transformed text back unconditionally;
the write flag of the file pipeline is `true` for every input content. -/
theorem sector_always_writes (content : Str) : (sectorRun content).2 = true := rfl

/-! ## Parametric theorems about the multi-line fixer -/

theorem quickFixLines_three (a b c : Str) :
    quickFixLines [a, b, c] =
      quickFixStep (quickFixStep (quickFixStep [a, b, c] 0) 1) 2 := rfl

theorem quickFixStep_oob (ls : List Str) (i : Nat) (h : ¬ (i + 2 < ls.length)) :
    quickFixStep ls i = ls := by
  simp only [quickFixStep, decide_eq_false h, Bool.and_false, Bool.false_and,
    Bool.and_false, Bool.false_eq_true, if_false]

theorem rstrip_append_commaNl (x : Str) : rstrip (x ++ qfCommaNl) = x ++ qfComma := by
  have h2 : qfCommaNl = [',', '\n'] := by decide
  have h3 : qfComma = [','] := by decide
  have hcomma : pyWs ',' = false := by decide
  have hnl : pyWs '\n' = true := by decide
  simp [rstrip, h2, h3, List.dropWhile_cons, hcomma, hnl]

/-- C9: in the multi-line fixer, a matched three-line block (first line holds
the constructor call, third line strips to `);`) whose middle line lacks a
trailing comma gets the comma appended even when the message matches none of
the eight listed substrings; the file is therefore modified although no code
token is added (the third line is returned unchanged). -/
theorem quickfix_comma_added_without_code (a b c : Str)
    (hA : containsSub qfMarker a = true)
    (hC : pyStrip c = qfClose)
    (hNoSub : qfSubs.any (fun sub => containsSub sub b) = false)
    (hNC : qfComma.isSuffixOf (rstrip b) = false) :
    quickFixLines [a, b, c] = [a, rstrip b ++ qfCommaNl, c] ∧
    quickFixLines [a, b, c] ≠ [a, b, c] := by
  have key : quickFixLines [a, b, c] = [a, rstrip b ++ qfCommaNl, c] := by
    rw [quickFixLines_three]
    have h0 : quickFixStep [a, b, c] 0 = [a, rstrip b ++ qfCommaNl, c] := by
      simp only [quickFixStep, List.getD_cons_zero, List.getD_cons_succ, hA, hC,
        List.length_cons, List.length_nil, hNoSub, Bool.false_eq_true, if_false]
      simp [hNC, List.set]
    rw [h0, quickFixStep_oob _ 1 (by simp), quickFixStep_oob _ 2 (by simp)]
  refine ⟨key, ?_⟩
  rw [key]
  intro hEq
  have hb : rstrip b ++ qfCommaNl = b := by
    simpa using congrArg (fun l => l.getD 1 []) hEq
  have hr := congrArg rstrip hb
  rw [rstrip_append_commaNl] at hr
  have hlen := congrArg List.length hr
  have hq : qfComma.length = 1 := by decide
  rw [List.length_append, hq] at hlen
  omega

/-- C9 witness: concrete three-line block exercising the theorem. -/
theorem quickfix_comma_added_without_code_witness :
    quickFixLines [mlThrow, mlOtherMsg, mlCloseSix] =
      [mlThrow, rstrip mlOtherMsg ++ qfCommaNl, mlCloseSix] ∧
    quickFixLines [mlThrow, mlOtherMsg, mlCloseSix] ≠
      [mlThrow, mlOtherMsg, mlCloseSix] :=
  quickfix_comma_added_without_code mlThrow mlOtherMsg mlCloseSix
    (by decide) (by decide) (by decide) (by decide)

/-- C6 amended: on a matched three-line block whose middle line contains
`Failed to save business:` and lacks a trailing comma, the fixer appends the
comma to the (rstripped) middle line and replaces the whole closing line with
the fixed text `        "INFRASTRUCTURE_ERROR"\n      );\n` — the code line and
the closing parenthesis carry hard-coded indentation (eight and six spaces)
rather than the indentation of the original closing line. -/
theorem quickfix_save_message_rewrite (a b c : Str)
    (hA : containsSub qfMarker a = true)
    (hC : pyStrip c = qfClose)
    (hSub : containsSub ("Failed to save business:".toList) b = true)
    (hNC : qfComma.isSuffixOf (rstrip b) = false) :
    quickFixLines [a, b, c] = [a, rstrip b ++ qfCommaNl, qfFixed] := by
  rw [quickFixLines_three]
  have h0 : quickFixStep [a, b, c] 0 = [a, rstrip b ++ qfCommaNl, qfFixed] := by
    simp only [quickFixStep, List.getD_cons_zero, List.getD_cons_succ, hA, hC,
      List.length_cons, List.length_nil, qfSubs, List.any_cons, List.any_nil, hSub]
    simp [hNC, List.set]
  rw [h0, quickFixStep_oob _ 1 (by simp), quickFixStep_oob _ 2 (by simp)]

/-- C6 witness: the three-line block with the eight-space closing line. -/
theorem quickfix_save_message_rewrite_witness :
    quickFixLines [mlThrow, mlMsg, mlCloseEight] =
      [mlThrow, rstrip mlMsg ++ qfCommaNl, qfFixed] :=
  quickfix_save_message_rewrite mlThrow mlMsg mlCloseEight
    (by decide) (by decide) (by decide) (by decide)

/-- C7 amended: on a matched three-line block whose message matches none of the
eight listed substrings, no code token is assigned at all — the first and the
closing line are returned unchanged (only the middle line may gain a trailing
comma); the table's default code is never applied. -/
theorem quickfix_unmatched_no_code (a b c : Str)
    (hA : containsSub qfMarker a = true)
    (hC : pyStrip c = qfClose)
    (hNoSub : qfSubs.any (fun sub => containsSub sub b) = false) :
    ∃ mid, quickFixLines [a, b, c] = [a, mid, c] := by
  rw [quickFixLines_three]
  cases hcm : qfComma.isSuffixOf (rstrip b) with
  | true =>
    refine ⟨b, ?_⟩
    have h0 : quickFixStep [a, b, c] 0 = [a, b, c] := by
      simp only [quickFixStep, List.getD_cons_zero, List.getD_cons_succ, hA, hC,
        List.length_cons, List.length_nil, hNoSub, Bool.false_eq_true, if_false]
      simp [hcm]
    rw [h0, quickFixStep_oob _ 1 (by simp), quickFixStep_oob _ 2 (by simp)]
  | false =>
    refine ⟨rstrip b ++ qfCommaNl, ?_⟩
    have h0 : quickFixStep [a, b, c] 0 = [a, rstrip b ++ qfCommaNl, c] := by
      simp only [quickFixStep, List.getD_cons_zero, List.getD_cons_succ, hA, hC,
        List.length_cons, List.length_nil, hNoSub, Bool.false_eq_true, if_false]
      simp [hcm, List.set]
    rw [h0, quickFixStep_oob _ 1 (by simp), quickFixStep_oob _ 2 (by simp)]

/-- C7 amended witness: concrete unmatched message. -/
theorem quickfix_unmatched_no_code_witness :
    ∃ mid, quickFixLines [mlThrow, mlOtherMsg, mlCloseSix] =
      [mlThrow, mid, mlCloseSix] :=
  quickfix_unmatched_no_code mlThrow mlOtherMsg mlCloseSix
    (by decide) (by decide) (by decide)

/-! ## Parametric theorems about the sector fixer -/

/-- C3 amended: the injection of fix_business_sector_repo.py is gated by a
presence check on the marker and inserts after the first `import ` line only:
whenever the marker is absent from the file and some line starts with
`import `, the injector's line list contains the declaration line exactly
once. -/
theorem sector_inject_once (content : Str)
    (hm : containsSub bizMarker content = false)
    (hi : (splitNl content).any (fun l => importKw.isPrefixOf l) = true) :
    sectorInject content = joinNl (insertAfterFirstImport (splitNl content)) ∧
    countLine sectorDecl (insertAfterFirstImport (splitNl content)) = 1 := by
  constructor
  · rw [sectorInject, hm]
    simp
  · apply countLine_insert
    · intro l hl hligne
      have hinf := (splitNl_spec content).2 l hl
      have hbm : bizMarker <:+: sectorDecl := (containsSub_iff _ _).mp (by decide)
      rw [hligne] at hinf
      rw [containsSub_eq_false_iff] at hm
      exact hm (hbm.trans hinf)
    · exact hi
/-- C3 amended witness: a file with one import line and one throw statement. -/
theorem sector_inject_once_witness :
    sectorInject injectInput = joinNl (insertAfterFirstImport (splitNl injectInput)) ∧
    countLine sectorDecl (insertAfterFirstImport (splitNl injectInput)) = 1 :=
  sector_inject_once injectInput (by decide) (by decide)

/-- Helper: the sector injection leaves a marker-free single-line file whose
line does not start with `import ` unchanged. -/
theorem sectorInject_id (s : Str) (hm : containsSub bizMarker s = false)
    (hnl : '\n' ∉ s) (hkw : importKw.isPrefixOf s = false) : sectorInject s = s := by
  rw [sectorInject, hm]
  simp only [Bool.false_eq_true, if_false]
  rw [splitNl_single _ hnl]
  simp only [insertAfterFirstImport, hkw, Bool.false_eq_true, if_false, joinNl_single]

theorem isPrefixOf_refl (a : Str) : a.isPrefixOf a = true := by
  have h := isPrefixOf_self_append a []
  rwa [List.append_nil] at h

/-- Helper: when a whole statement is exactly one quoted throw statement, the
matching `re.sub` pass rewrites it into the replacement head, the payload
verbatim, and the replacement tail. -/
theorem sectorQuote_fire (lit close reph rept : Str) (qc : Char) (p : Str)
    (hne : p ≠ []) (hq : qc ∉ p) (hlit : lit ≠ [])
    (hc : close = qc :: [')', ';']) :
    pySub (tryMatchQ lit close reph rept qc) (lit ++ (p ++ close)) =
      reph ++ p ++ rept := by
  have hsne : lit ++ (p ++ close) ≠ [] :=
    List.append_ne_nil_of_left_ne_nil hlit _
  have hcl : close.isPrefixOf (qc :: [')', ';']) = true := by
    rw [hc]; exact isPrefixOf_refl _
  have h0 := tryMatchQ_hit lit close reph rept qc p [')', ';'] hne hq hcl
  rw [← hc] at h0
  rw [List.drop_length] at h0
  exact pySub_head_all _ _ _ hsne h0

/-- Helper: the newline character is absent from a wrapped statement when it is
absent from the three parts. -/
theorem nl_not_mem_wrap (lit p close : Str) (h1 : '\n' ∉ lit) (h2 : '\n' ∉ p)
    (h3 : '\n' ∉ close) : '\n' ∉ lit ++ (p ++ close) := by
  intro hmem
  rcases List.mem_append.mp hmem with h | h
  · exact h1 h
  · rcases List.mem_append.mp h with h | h
    · exact h2 h
    · exact h3 h

/-- C2 amended: for every rewritten statement the message payload bytes are
preserved verbatim, in each of the three recognized quoting shapes.  Part one
(single quotes): `throw new Error('<p>');` becomes
`throw new InfrastructureException("<p>", "INFRASTRUCTURE_ERROR");` — the
payload is preserved but the single-quote delimiters are replaced by double
quotes rather than preserved.  Part two (double quotes):
`throw new Error("<pd>");` becomes
`throw new InfrastructureException("<pd>", "INFRASTRUCTURE_ERROR");` — payload
and double-quote delimiters preserved.  Part three (template literal):
`throw new Error(`<pt>`);` becomes
`throw new InfrastructureException(`<pt>`, "INFRASTRUCTURE_ERROR");` — payload
and backtick delimiters preserved. -/
theorem sector_payload_preserved (p pd pt : Str)
    (hne : p ≠ []) (hq : '\'' ∉ p) (hnl : '\n' ∉ p)
    (hm : containsSub bizMarker (lit1 ++ (p ++ close1)) = false)
    (h2 : containsSub lit2 (rep1head ++ p ++ rep1tail) = false)
    (h3 : containsSub lit3 (rep1head ++ p ++ rep1tail) = false)
    (hdne : pd ≠ []) (hdq : '\"' ∉ pd) (hdnl : '\n' ∉ pd)
    (hdm : containsSub bizMarker (lit2 ++ (pd ++ close2)) = false)
    (hd1 : containsSub lit1 (lit2 ++ (pd ++ close2)) = false)
    (hd3 : containsSub lit3 (rep1head ++ pd ++ rep1tail) = false)
    (htne : pt ≠ []) (htq : '`' ∉ pt) (htnl : '\n' ∉ pt)
    (htm : containsSub bizMarker (lit3 ++ (pt ++ close3)) = false)
    (ht1 : containsSub lit1 (lit3 ++ (pt ++ close3)) = false)
    (ht2 : containsSub lit2 (lit3 ++ (pt ++ close3)) = false) :
    fixSector (lit1 ++ (p ++ close1)) = rep1head ++ p ++ rep1tail ∧
    fixSector (lit2 ++ (pd ++ close2)) = rep1head ++ pd ++ rep1tail ∧
    fixSector (lit3 ++ (pt ++ close3)) = rep3head ++ pt ++ rep3tail := by
  refine ⟨?_, ?_, ?_⟩
  · have hinj := sectorInject_id (lit1 ++ (p ++ close1)) hm
      (nl_not_mem_wrap lit1 p close1 (by decide) hnl (by decide))
      (isPrefixOf_append_false importKw lit1 (p ++ close1) (by decide) (by decide))
    have hstage1 := sectorQuote_fire lit1 close1 rep1head rep1tail '\'' p
      hne hq (by decide) (by decide)
    have hstage2 : pySub (tryMatchQ lit2 close2 rep1head rep1tail '\"')
        (rep1head ++ p ++ rep1tail) = rep1head ++ p ++ rep1tail :=
      pySub_none _ _ (fun t ht => tryMatchQ_none lit2 close2 rep1head rep1tail '\"' _ t h2 ht)
    have hstage3 : pySub (tryMatchQ lit3 close3 rep3head rep3tail '`')
        (rep1head ++ p ++ rep1tail) = rep1head ++ p ++ rep1tail :=
      pySub_none _ _ (fun t ht => tryMatchQ_none lit3 close3 rep3head rep3tail '`' _ t h3 ht)
    rw [fixSector, hinj, sectorPatterns, hstage1, hstage2, hstage3]
  · have hinj := sectorInject_id (lit2 ++ (pd ++ close2)) hdm
      (nl_not_mem_wrap lit2 pd close2 (by decide) hdnl (by decide))
      (isPrefixOf_append_false importKw lit2 (pd ++ close2) (by decide) (by decide))
    have hstage1 : pySub (tryMatchQ lit1 close1 rep1head rep1tail '\'')
        (lit2 ++ (pd ++ close2)) = lit2 ++ (pd ++ close2) :=
      pySub_none _ _ (fun t ht => tryMatchQ_none lit1 close1 rep1head rep1tail '\'' _ t hd1 ht)
    have hstage2 := sectorQuote_fire lit2 close2 rep1head rep1tail '\"' pd
      hdne hdq (by decide) (by decide)
    have hstage3 : pySub (tryMatchQ lit3 close3 rep3head rep3tail '`')
        (rep1head ++ pd ++ rep1tail) = rep1head ++ pd ++ rep1tail :=
      pySub_none _ _ (fun t ht => tryMatchQ_none lit3 close3 rep3head rep3tail '`' _ t hd3 ht)
    rw [fixSector, hinj, sectorPatterns, hstage1, hstage2, hstage3]
  · have hinj := sectorInject_id (lit3 ++ (pt ++ close3)) htm
      (nl_not_mem_wrap lit3 pt close3 (by decide) htnl (by decide))
      (isPrefixOf_append_false importKw lit3 (pt ++ close3) (by decide) (by decide))
    have hstage1 : pySub (tryMatchQ lit1 close1 rep1head rep1tail '\'')
        (lit3 ++ (pt ++ close3)) = lit3 ++ (pt ++ close3) :=
      pySub_none _ _ (fun t ht => tryMatchQ_none lit1 close1 rep1head rep1tail '\'' _ t ht1 ht)
    have hstage2 : pySub (tryMatchQ lit2 close2 rep1head rep1tail '\"')
        (lit3 ++ (pt ++ close3)) = lit3 ++ (pt ++ close3) :=
      pySub_none _ _ (fun t ht => tryMatchQ_none lit2 close2 rep1head rep1tail '\"' _ t ht2 ht)
    have hstage3 := sectorQuote_fire lit3 close3 rep3head rep3tail '`' pt
      htne htq (by decide) (by decide)
    rw [fixSector, hinj, sectorPatterns, hstage1, hstage2, hstage3]

/-- C2 amended witness: payloads `abc` (single-quoted), `xyz` (double-quoted)
and `msg` (template literal). -/
theorem sector_payload_preserved_witness :
    fixSector (lit1 ++ ("abc".toList ++ close1)) =
      rep1head ++ "abc".toList ++ rep1tail ∧
    fixSector (lit2 ++ ("xyz".toList ++ close2)) =
      rep1head ++ "xyz".toList ++ rep1tail ∧
    fixSector (lit3 ++ ("msg".toList ++ close3)) =
      rep3head ++ "msg".toList ++ rep3tail :=
  sector_payload_preserved ("abc".toList) ("xyz".toList) ("msg".toList)
    (by decide) (by decide) (by decide) (by decide) (by decide) (by decide)
    (by decide) (by decide) (by decide) (by decide) (by decide) (by decide)
    (by decide) (by decide) (by decide) (by decide) (by decide) (by decide)

/-! ## Parametric theorems about the business-repository fixer -/
theorem fixBizLine_skip (line : Str) (h : containsSub litTpl line = false) :
    fixBizLine line = line := by
  simp only [fixBizLine, h, Bool.false_and, Bool.false_eq_true, if_false]

theorem fixBizLine_template (q : Str) (hpq : ')' ∉ q) :
    fixBizLine (throwInfra ++ '`' :: (q ++ close3)) =
      throwInfra ++ '`' :: (q ++ tplCodeTail) := by
  have hsplit : throwInfra ++ '`' :: (q ++ close3) = litTpl ++ (q ++ close3) := by
    rw [show litTpl = throwInfra ++ ['`'] from by decide]
    simp [List.append_assoc]
  have hsplit2 : throwInfra ++ '`' :: (q ++ close3) =
      (throwInfra ++ '`' :: (q ++ ['`'])) ++ closePar := by
    rw [show close3 = ['`'] ++ closePar from by decide]
    simp [List.append_assoc]
  have hcontains : containsSub litTpl (throwInfra ++ '`' :: (q ++ close3)) = true := by
    rw [hsplit]; exact containsSub_head _ _
  have hcons : throwInfra ++ '`' :: (q ++ close3) =
      't' :: ("hrow new InfrastructureException(".toList ++ '`' :: (q ++ close3)) := by
    rw [show throwInfra = 't' :: "hrow new InfrastructureException(".toList from by decide]
    rfl
  have hsemi : throwInfra ++ '`' :: (q ++ close3) =
      (throwInfra ++ '`' :: (q ++ ['`', ')'])) ++ [';'] := by
    rw [show close3 = ['`', ')'] ++ [';'] from by decide]
    simp [List.append_assoc]
  have hstrip : pyStrip (throwInfra ++ '`' :: (q ++ close3)) =
      throwInfra ++ '`' :: (q ++ close3) := by
    rw [pyStrip, hcons, lstrip_cons_nonws _ _ (by decide), ← hcons, hsemi,
      rstrip_last_nonws _ _ (by decide)]
  have hsuffix : closePar.isSuffixOf (pyStrip (throwInfra ++ '`' :: (q ++ close3))) = true := by
    rw [hstrip, hsplit2]
    exact isSuffixOf_self_append _ _
  have hnotin : ')' ∉ throwInfra ++ '`' :: (q ++ ['`']) := by
    intro hmem
    rcases List.mem_append.mp hmem with h | h
    · exact absurd h (by decide)
    · rcases List.mem_cons.mp h with h | h
      · exact absurd h (by decide)
      · rcases List.mem_append.mp h with h | h
        · exact hpq h
        · exact absurd h (by decide)
  have hinfnil : ¬ closePar <:+: ([] : Str) :=
    fun h => absurd (List.infix_nil.mp h) (by decide)
  have h0 := replaceAll_single closePar codeRep (throwInfra ++ '`' :: (q ++ ['`'])) []
    ')' [';'] (by decide) hnotin hinfnil
  rw [List.append_nil, List.append_nil, ← hsplit2] at h0
  simp only [fixBizLine, hcontains, hsuffix, Bool.true_and, if_true, h0]
  rw [show tplCodeTail = ['`'] ++ codeRep from by decide]
  simp [List.append_assoc]

theorem fixBusinessRepo_one_line (c0 : Char) (t : Str)
    (hm : containsSub bizMarker (throwErr ++ c0 :: t) = false)
    (ha : containsSub bizAnchor (throwErr ++ c0 :: t) = false)
    (hr : containsSub throwErr (c0 :: t) = false)
    (hnl : '\n' ∉ throwInfra ++ c0 :: t) :
    fixBusinessRepo (throwErr ++ c0 :: t) = fixBizLine (throwInfra ++ c0 :: t) := by
  simp only [fixBusinessRepo, hm, Bool.false_eq_true, if_false]
  rw [replaceAll_no_occ _ _ _ ha]
  rw [replaceAll_head_occ throwErr throwInfra (c0 :: t) 't'
    ("hrow new Error(".toList) (by decide) hr]
  rw [splitNl_single _ hnl, List.map_cons, List.map_nil, joinNl_single]

/-- C10: the business fixer renames every `throw new Error(` occurrence
unconditionally, but appends the `"INFRASTRUCTURE_ERROR"` code token only to
single-line template-literal statements ending in `);`.  Part one: a
single-quoted statement is renamed and left without any code argument (the
output constructor call has the message as its only argument).  Part two: a
template-literal statement is renamed and gains the code token. -/
theorem fixBusinessRepo_template_only_code (p q : Str)
    (hm1 : containsSub bizMarker (throwErr ++ '\'' :: (p ++ close1)) = false)
    (ha1 : containsSub bizAnchor (throwErr ++ '\'' :: (p ++ close1)) = false)
    (hr1 : containsSub throwErr ('\'' :: (p ++ close1)) = false)
    (hnl1 : '\n' ∉ p)
    (hT1 : containsSub litTpl (throwInfra ++ '\'' :: (p ++ close1)) = false)
    (hm2 : containsSub bizMarker (throwErr ++ '`' :: (q ++ close3)) = false)
    (ha2 : containsSub bizAnchor (throwErr ++ '`' :: (q ++ close3)) = false)
    (hr2 : containsSub throwErr ('`' :: (q ++ close3)) = false)
    (hnl2 : '\n' ∉ q)
    (hpq : ')' ∉ q) :
    fixBusinessRepo (throwErr ++ '\'' :: (p ++ close1)) =
      throwInfra ++ '\'' :: (p ++ close1) ∧
    fixBusinessRepo (throwErr ++ '`' :: (q ++ close3)) =
      throwInfra ++ '`' :: (q ++ tplCodeTail) := by
  constructor
  · have hnlA : '\n' ∉ throwInfra ++ '\'' :: (p ++ close1) := by
      intro hmem
      rcases List.mem_append.mp hmem with h | h
      · exact absurd h (by decide)
      · rcases List.mem_cons.mp h with h | h
        · exact absurd h (by decide)
        · rcases List.mem_append.mp h with h | h
          · exact hnl1 h
          · exact absurd h (by decide)
    rw [fixBusinessRepo_one_line '\'' (p ++ close1) hm1 ha1 hr1 hnlA]
    exact fixBizLine_skip _ hT1
  · have hnlB : '\n' ∉ throwInfra ++ '`' :: (q ++ close3) := by
      intro hmem
      rcases List.mem_append.mp hmem with h | h
      · exact absurd h (by decide)
      · rcases List.mem_cons.mp h with h | h
        · exact absurd h (by decide)
        · rcases List.mem_append.mp h with h | h
          · exact hnl2 h
          · exact absurd h (by decide)
    rw [fixBusinessRepo_one_line '`' (q ++ close3) hm2 ha2 hr2 hnlB]
    exact fixBizLine_template q hpq

/-- C10 witness: concrete payloads for both statement shapes. -/
theorem fixBusinessRepo_template_only_code_witness :
    fixBusinessRepo (throwErr ++ '\'' :: ("msg one".toList ++ close1)) =
      throwInfra ++ '\'' :: ("msg one".toList ++ close1) ∧
    fixBusinessRepo (throwErr ++ '`' :: ("msg two".toList ++ close3)) =
      throwInfra ++ '`' :: ("msg two".toList ++ tplCodeTail) :=
  fixBusinessRepo_template_only_code ("msg one".toList) ("msg two".toList)
    (by decide) (by decide) (by decide) (by decide) (by decide)
    (by decide) (by decide) (by decide) (by decide) (by decide)

/-- C8 amended witness: the write flag at a concrete content. -/
theorem sector_always_writes_witness : (sectorRun quoteLine).2 = true :=
  sector_always_writes quoteLine
